import Mathlib

/-!
Shallow embedding of the whisper-webhook service (src/app.py) and proofs of the
spec's claims about it.  Times and durations are modelled as rationals; Python
dictionaries with optional keys are modelled with `Option` fields; Python's
`ZeroDivisionError` on `total_duration / segment_duration` is modelled by an
`Except` result on `create_segments`.
-/

namespace WhisperApp

/-- A transcribed word as returned by the transcription API: the dict
`\x7b'word': ..., 'start': ..., 'end': ...\x7d` consumed by `create_segments`
(src/app.py lines 166 and 169).  `end_` models the `'end'` key. -/
structure Word where
  word : String
  start : ℚ
  end_ : ℚ
  deriving DecidableEq, Inhabited

/-- The transcription dict as consumed by `create_segments`: only the keys
`'duration'` (read with `transcription.get('duration', 0)`, line 152) and the
optional `'words'` key (lines 163-165) are relevant.  A missing key is `none`. -/
structure Transcript where
  duration : Option ℚ
  words : Option (List Word)
  deriving DecidableEq, Inhabited

/-- One output segment dict appended by the loop (src/app.py lines 171-180). -/
structure Segment where
  segment_id : ℕ
  start_time : ℚ
  end_time : ℚ
  duration : ℚ
  has_lyrics : Bool
  lyrics : String
  word_count : ℕ
  words : List Word
  deriving DecidableEq, Inhabited

/-- Python `int()` applied to a rational (a float in the source): truncation
toward zero, as in `int(total_duration / segment_duration)` (line 153). -/
def pyInt (q : ℚ) : ℤ := if q < 0 then ⌈q⌉ else ⌊q⌋

/-- Python `round(x, 2)` (lines 173-175): round to 2 decimal places with ties
going to the even hundredth (banker's rounding). -/
def pyRound2 (x : ℚ) : ℚ :=
  let y : ℚ := 100 * x
  let n : ℤ :=
    if y - ⌊y⌋ < 1/2 then ⌊y⌋
    else if 1/2 < y - ⌊y⌋ then ⌊y⌋ + 1
    else if ⌊y⌋ % 2 = 0 then ⌊y⌋ else ⌊y⌋ + 1
  (n : ℚ) / 100

/-- Python `' '.join(l)` (line 169). -/
def joinSpace (l : List String) : String := String.intercalate " " l

/-- Python `str.strip()` (line 169): drop leading and trailing whitespace. -/
def pyStrip (s : String) : String :=
  ⟨((s.data.dropWhile Char.isWhitespace).reverse.dropWhile Char.isWhitespace).reverse⟩

/-- `total_duration = transcription.get('duration', 0)` (line 152). -/
def totalDuration (t : Transcript) : ℚ := t.duration.getD 0

/-- `total_segments = int(total_duration / segment_duration) + 1` (line 153). -/
def totalSegments (t : Transcript) (sd : ℚ) : ℤ := pyInt (totalDuration t / sd) + 1

/-- `start_time = i * segment_duration` (line 158). -/
def segStart (sd : ℚ) (i : ℕ) : ℚ := (i : ℚ) * sd

/-- `end_time = min((i + 1) * segment_duration, total_duration)` (line 159). -/
def segEnd (t : Transcript) (sd : ℚ) (i : ℕ) : ℚ :=
  min (((i : ℚ) + 1) * sd) (totalDuration t)

/-- The membership test of the list comprehension (line 166):
`word['start'] >= start_time and word['start'] < end_time`. -/
def segWordPred (t : Transcript) (sd : ℚ) (i : ℕ) (w : Word) : Bool :=
  decide (segStart sd i ≤ w.start) && decide (w.start < segEnd t sd i)

/-- `words_in_segment` (lines 162-167): the empty list when the `'words'` key is
missing, otherwise the filter of `transcription['words']` by `segWordPred`. -/
def wordsInSegment (t : Transcript) (sd : ℚ) (i : ℕ) : List Word :=
  match t.words with
  | none => []
  | some ws => ws.filter (segWordPred t sd i)

/-- The segment dict built at loop iteration `i` (lines 158-180). -/
def mkSegment (t : Transcript) (sd : ℚ) (i : ℕ) : Segment :=
  let ws := wordsInSegment t sd i
  { segment_id := i
    start_time := pyRound2 (segStart sd i)
    end_time := pyRound2 (segEnd t sd i)
    duration := pyRound2 (segEnd t sd i - segStart sd i)
    has_lyrics := decide (0 < ws.length)
    lyrics := pyStrip (joinSpace (ws.map Word.word))
    word_count := ws.length
    words := ws }

/-- The list built by `for i in range(total_segments)` (lines 157-180); as in
Python, `range` of a non-positive number is empty (`Int.toNat`). -/
def segmentList (t : Transcript) (sd : ℚ) : List Segment :=
  (List.range (totalSegments t sd).toNat).map (mkSegment t sd)

/-- `create_segments(transcription, segment_duration)` (src/app.py lines
149-185).  When `segment_duration = 0` the division at line 153 raises
`ZeroDivisionError`; on every other input the function returns the loop's
list normally. -/
def create_segments (t : Transcript) (sd : ℚ) : Except String (List Segment) :=
  if sd = 0 then Except.error "ZeroDivisionError: float division by zero"
  else Except.ok (segmentList t sd)

/-- A parsed JSON request body, modelled as an association list of string keys,
as inspected by `process_audio_base64` (src/app.py lines 54-61). -/
structure JsonBody where
  entries : List (String × String)
  deriving DecidableEq

/-- Python `k in data` on a JSON object. -/
def JsonBody.hasKey (b : JsonBody) (k : String) : Bool :=
  b.entries.any (fun e => e.1 == k)

/-- Python `data[k]` / `data.get(k)`: the first binding of the key. -/
def JsonBody.getKey (b : JsonBody) (k : String) : Option String :=
  (b.entries.find? (fun e => e.1 == k)).map (fun e => e.2)

/-- The guard `if not data or 'audio_data' not in data` (line 55): `true` means
the handler answers 400 with "Données audio manquantes".  `none` models a body
that `request.get_json()` could not parse. -/
def base64MissingAudio : Option JsonBody → Bool
  | none => true
  | some d => d.entries.isEmpty || !(d.hasKey "audio_data")

/-- The audio actually read at line 59: `base64.b64decode(data['audio_data'])`
consults only the `'audio_data'` key. -/
def base64AudioField (d : JsonBody) : Option String :=
  d.getKey "audio_data"

/-! ### Basic bridging lemmas -/

theorem create_segments_ok (t : Transcript) (sd : ℚ) (h : sd ≠ 0) :
    create_segments t sd = Except.ok (segmentList t sd) := by
  simp [create_segments, h]

theorem eq_segmentList_of_ok (t : Transcript) (sd : ℚ) (segs : List Segment)
    (hok : create_segments t sd = Except.ok segs) : segs = segmentList t sd := by
  by_cases h : sd = 0
  · simp [create_segments, h] at hok
  · rw [create_segments_ok t sd h] at hok
    exact (Except.ok.injEq _ _ ▸ hok).symm

theorem segmentList_length (t : Transcript) (sd : ℚ) :
    (segmentList t sd).length = (totalSegments t sd).toNat := by
  simp [segmentList]

theorem segmentList_get (t : Transcript) (sd : ℚ) (i : ℕ)
    (h : i < (segmentList t sd).length) :
    (segmentList t sd).get ⟨i, h⟩ = mkSegment t sd i := by
  simp [segmentList]

theorem totalSegments_nonneg_toNat (t : Transcript) (sd : ℚ)
    (hd : 0 ≤ totalDuration t) (hsd : 0 < sd) :
    (totalSegments t sd).toNat = (⌊totalDuration t / sd⌋).toNat + 1 := by
  have hq : 0 ≤ totalDuration t / sd := div_nonneg hd hsd.le
  have hfl : 0 ≤ ⌊totalDuration t / sd⌋ := Int.floor_nonneg.2 hq
  have hpy : pyInt (totalDuration t / sd) = ⌊totalDuration t / sd⌋ := by
    simp [pyInt, not_lt.2 hq]
  rw [totalSegments, hpy]
  omega

theorem pyRound2_zero : pyRound2 0 = 0 := by
  norm_num [pyRound2]

theorem pyStrip_empty : pyStrip "" = "" := rfl

/-! ### Bucket index: which window a time value falls in -/

/-- The index of the window that a time value `x` falls in: `⌊x / sd⌋`. -/
def bucketIdx (sd x : ℚ) : ℕ := (⌊x / sd⌋).toNat

theorem bucketIdx_spec (sd x : ℚ) (hsd : 0 < sd) (h0 : 0 ≤ x) (j : ℕ) :
    ((j : ℚ) * sd ≤ x ∧ x < ((j : ℚ) + 1) * sd) ↔ j = bucketIdx sd x := by
  have hq : 0 ≤ x / sd := div_nonneg h0 hsd.le
  have hfl0 : 0 ≤ ⌊x / sd⌋ := Int.floor_nonneg.2 hq
  constructor
  · rintro ⟨h1, h2⟩
    have h1' : (j : ℚ) ≤ x / sd := (le_div_iff₀ hsd).2 h1
    have h2' : x / sd < (j : ℚ) + 1 := (div_lt_iff₀ hsd).2 (by linarith)
    have hfj : ⌊x / sd⌋ = (j : ℤ) := by
      rw [Int.floor_eq_iff]
      constructor
      · exact_mod_cast h1'
      · push_cast
        exact h2'
    rw [bucketIdx, hfj]
    simp
  · rintro rfl
    have hcast : ((bucketIdx sd x : ℕ) : ℚ) = ((⌊x / sd⌋ : ℤ) : ℚ) := by
      rw [bucketIdx]
      exact_mod_cast congrArg (fun z : ℤ => (z : ℚ)) (Int.toNat_of_nonneg hfl0)
    constructor
    · rw [← le_div_iff₀ hsd, hcast]
      exact Int.floor_le (x / sd)
    · rw [← div_lt_iff₀ hsd]
      have := Int.lt_floor_add_one (x / sd)
      rw [hcast]
      exact_mod_cast this


theorem bucketIdx_lt (t : Transcript) (sd x : ℚ) (hsd : 0 < sd) (h0 : 0 ≤ x)
    (hx : x < totalDuration t) : bucketIdx sd x < (totalSegments t sd).toNat := by
  have hd : 0 ≤ totalDuration t := le_of_lt (lt_of_le_of_lt h0 hx)
  rw [totalSegments_nonneg_toNat t sd hd hsd]
  have hmono : ⌊x / sd⌋ ≤ ⌊totalDuration t / sd⌋ :=
    Int.floor_le_floor ((div_le_div_iff_of_pos_right hsd).2 hx.le)
  rw [bucketIdx]
  omega

theorem segWordPred_eq_true_iff (t : Transcript) (sd : ℚ) (hsd : 0 < sd) (w : Word)
    (h0 : 0 ≤ w.start) (hlt : w.start < totalDuration t) (i : ℕ) :
    segWordPred t sd i w = true ↔ i = bucketIdx sd w.start := by
  rw [← bucketIdx_spec sd w.start hsd h0 i]
  simp only [segWordPred, segStart, segEnd, Bool.and_eq_true, decide_eq_true_eq]
  constructor
  · rintro ⟨h1, h2⟩
    exact ⟨h1, (lt_min_iff.1 h2).1⟩
  · rintro ⟨h1, h2⟩
    exact ⟨h1, lt_min_iff.2 ⟨h2, hlt⟩⟩

theorem segWordPred_eq_beq (t : Transcript) (sd : ℚ) (hsd : 0 < sd) (w : Word)
    (h0 : 0 ≤ w.start) (hlt : w.start < totalDuration t) (i : ℕ) :
    segWordPred t sd i w = (bucketIdx sd w.start == i) := by
  rw [Bool.eq_iff_iff, segWordPred_eq_true_iff t sd hsd w h0 hlt i]
  rw [beq_iff_eq]
  exact eq_comm

theorem bucketIdx_mono (sd : ℚ) (hsd : 0 < sd) {x y : ℚ} (h : x ≤ y) :
    bucketIdx sd x ≤ bucketIdx sd y := by
  have : ⌊x / sd⌋ ≤ ⌊y / sd⌋ :=
    Int.floor_le_floor ((div_le_div_iff_of_pos_right hsd).2 h)
  rw [bucketIdx, bucketIdx]
  omega

/-! ### Summation and concatenation machinery -/

theorem list_range_map_sum (f : ℕ → ℕ) (n : ℕ) :
    ((List.range n).map f).sum = Finset.sum (Finset.range n) f := by
  induction n with
  | zero => simp
  | succ m ih =>
    rw [List.range_succ, List.map_append, List.sum_append, Finset.sum_range_succ, ih]
    simp

theorem sum_filter_length_of_unique {α : Type} (p : ℕ → α → Bool) (n : ℕ) :
    ∀ l : List α, (∀ a ∈ l, ∃ i, i < n ∧ ∀ j : ℕ, p j a = true ↔ j = i) →
      Finset.sum (Finset.range n) (fun i => (l.filter (p i)).length) = l.length := by
  intro l
  induction l with
  | nil => intro _; simp
  | cons a l ih =>
    intro h
    obtain ⟨i0, hi0, hchar⟩ := h a (List.mem_cons_self a l)
    have hrest : ∀ b ∈ l, ∃ i, i < n ∧ ∀ j : ℕ, p j b = true ↔ j = i :=
      fun b hb => h b (List.mem_cons_of_mem a hb)
    have hsplit : ∀ i, ((a :: l).filter (p i)).length
        = (l.filter (p i)).length + (if p i a = true then 1 else 0) := by
      intro i
      by_cases hp : p i a = true <;> simp [List.filter_cons, hp]
    calc Finset.sum (Finset.range n) (fun i => ((a :: l).filter (p i)).length)
        = Finset.sum (Finset.range n)
            (fun i => (l.filter (p i)).length + (if p i a = true then 1 else 0)) :=
          Finset.sum_congr rfl (fun i _ => hsplit i)
      _ = Finset.sum (Finset.range n) (fun i => (l.filter (p i)).length)
            + Finset.sum (Finset.range n) (fun i => if p i a = true then 1 else 0) :=
          Finset.sum_add_distrib
      _ = l.length + 1 := by
          rw [ih hrest]
          congr 1
          have hcond : ∀ i, (if p i a = true then 1 else 0) = (if i = i0 then 1 else 0) :=
            fun i => by simp [hchar i]
          rw [Finset.sum_congr rfl (fun i _ => hcond i),
            Finset.sum_ite_eq' (Finset.range n) i0 (fun _ => 1)]
          simp [hi0]
      _ = (a :: l).length := by simp

theorem filter_lt_append_filter_eq {α : Type} (b : α → ℕ) (n : ℕ) :
    ∀ l : List α, l.Pairwise (fun x y => b x ≤ b y) →
      l.filter (fun x => decide (b x < n)) ++ l.filter (fun x => b x == n)
        = l.filter (fun x => decide (b x < n + 1)) := by
  intro l
  induction l with
  | nil => intro _; simp
  | cons a l ih =>
    intro hp
    have h1 : ∀ y ∈ l, b a ≤ b y := (List.pairwise_cons.1 hp).1
    have h2 : l.Pairwise (fun x y => b x ≤ b y) := (List.pairwise_cons.1 hp).2
    rcases Nat.lt_trichotomy (b a) n with hlt | heq | hgt
    · have c1 : decide (b a < n) = true := by simp [hlt]
      have c2 : (b a == n) = false := by simp [Nat.ne_of_lt hlt]
      have c3 : decide (b a < n + 1) = true := by simp [Nat.lt_succ_of_lt hlt]
      simp [List.filter_cons, c1, c2, c3, ih h2]
    · have c1 : decide (b a < n) = false := by simp [heq]
      have c2 : (b a == n) = true := by simp [heq]
      have c3 : decide (b a < n + 1) = true := by simp [heq]
      have hnil : l.filter (fun x => decide (b x < n)) = [] := by
        apply List.filter_eq_nil_iff.2
        intro y hy
        have := h1 y hy
        simp
        omega
      have hcong : l.filter (fun x => b x == n) = l.filter (fun x => decide (b x < n + 1)) := by
        apply List.filter_congr
        intro y hy
        have := h1 y hy
        rw [Bool.eq_iff_iff]
        simp [beq_iff_eq]
        omega
      simp [List.filter_cons, c1, c2, c3, hnil, hcong]
    · have c1 : decide (b a < n) = false := by simp; omega
      have c2 : (b a == n) = false := by simp [beq_iff_eq]; omega
      have c3 : decide (b a < n + 1) = false := by simp; omega
      have hnil1 : l.filter (fun x => decide (b x < n)) = [] := by
        apply List.filter_eq_nil_iff.2
        intro y hy
        have := h1 y hy
        simp
        omega
      have hnil2 : l.filter (fun x => b x == n) = [] := by
        apply List.filter_eq_nil_iff.2
        intro y hy
        have := h1 y hy
        simp [beq_iff_eq]
        omega
      have hnil3 : l.filter (fun x => decide (b x < n + 1)) = [] := by
        apply List.filter_eq_nil_iff.2
        intro y hy
        have := h1 y hy
        simp
        omega
      simp [List.filter_cons, c1, c2, c3, hnil1, hnil2, hnil3]

theorem flatten_range_filter {α : Type} (b : α → ℕ) (l : List α)
    (hp : l.Pairwise (fun x y => b x ≤ b y)) (n : ℕ) :
    ((List.range n).map (fun i => l.filter (fun x => b x == i))).flatten
      = l.filter (fun x => decide (b x < n)) := by
  induction n with
  | zero =>
    simp
  | succ m ih =>
    rw [List.range_succ, List.map_append, List.flatten_append, ih]
    simp only [List.map_cons, List.map_nil, List.flatten_cons, List.flatten_nil,
      List.append_nil]
    exact filter_lt_append_filter_eq b m l hp

theorem flatten_range_filter_eq_self {α : Type} (b : α → ℕ) (l : List α)
    (hp : l.Pairwise (fun x y => b x ≤ b y)) (n : ℕ) (hb : ∀ x ∈ l, b x < n) :
    ((List.range n).map (fun i => l.filter (fun x => b x == i))).flatten = l := by
  rw [flatten_range_filter b l hp n]
  apply List.filter_eq_self.2
  intro y hy
  simp [hb y hy]

/-! ### Claim theorems -/

/-- C1: for every transcript, every `segment_duration > 0` and every word `w` of the
transcript, `create_segments` assigns `w` to segment `i` if and only if
`i * segment_duration ≤ w.start < min((i+1) * segment_duration, total_duration)`:
a half-open interval test on the word's start time only (`w.end_` never occurs in
the condition), so a word whose start lies exactly on a boundary belongs to the
later segment. -/
theorem C1_word_assignment (t : Transcript) (sd : ℚ) (hsd : 0 < sd)
    (segs : List Segment) (hok : create_segments t sd = Except.ok segs)
    (ws : List Word) (hws : t.words = some ws)
    (w : Word) (hw : w ∈ ws) (i : ℕ) (hi : i < segs.length) :
    w ∈ (segs.get ⟨i, hi⟩).words ↔
      ((i : ℚ) * sd ≤ w.start ∧ w.start < min (((i : ℚ) + 1) * sd) (totalDuration t)) := by
  have hseg := eq_segmentList_of_ok t sd segs hok
  subst hseg
  rw [segmentList_get]
  simp only [mkSegment, wordsInSegment, hws, List.mem_filter, segWordPred, segStart,
    segEnd, Bool.and_eq_true, decide_eq_true_eq]
  constructor
  · rintro ⟨_, h⟩
    exact h
  · intro h
    exact ⟨hw, h⟩

/-- C2: for every transcript with nonnegative duration and every
`segment_duration > 0`, `create_segments` returns exactly
`floor(duration / segment_duration) + 1` segments, and when the duration is an
exact multiple `k * segment_duration` the list has `k + 1` entries whose last,
extra entry is the zero-width segment `[duration, duration)`. -/
theorem C2_segment_count (t : Transcript) (sd : ℚ) (hd : 0 ≤ totalDuration t)
    (hsd : 0 < sd) (segs : List Segment)
    (hok : create_segments t sd = Except.ok segs) :
    (segs.length : ℤ) = ⌊totalDuration t / sd⌋ + 1 ∧
    ∀ k : ℕ, totalDuration t = (k : ℚ) * sd →
      segs.length = k + 1 ∧
      ∃ h : k < segs.length,
        (segs.get ⟨k, h⟩).start_time = pyRound2 (totalDuration t) ∧
        (segs.get ⟨k, h⟩).end_time = pyRound2 (totalDuration t) ∧
        (segs.get ⟨k, h⟩).duration = 0 := by
  have hseg := eq_segmentList_of_ok t sd segs hok
  subst hseg
  have hfl : 0 ≤ ⌊totalDuration t / sd⌋ := Int.floor_nonneg.2 (div_nonneg hd hsd.le)
  have hlen : (segmentList t sd).length = (⌊totalDuration t / sd⌋).toNat + 1 := by
    rw [segmentList_length, totalSegments_nonneg_toNat t sd hd hsd]
  constructor
  · rw [hlen]
    push_cast
    omega
  · intro k hk
    have hdiv : totalDuration t / sd = (k : ℚ) := by
      rw [hk]
      field_simp
    have hflk : ⌊totalDuration t / sd⌋ = (k : ℤ) := by
      rw [hdiv]
      exact_mod_cast Int.floor_natCast k
    have hlen2 : (segmentList t sd).length = k + 1 := by
      rw [hlen, hflk]
      omega
    refine ⟨hlen2, ?_⟩
    have hklt : k < (segmentList t sd).length := by omega
    refine ⟨hklt, ?_, ?_, ?_⟩
    · rw [segmentList_get]
      show pyRound2 (segStart sd k) = pyRound2 (totalDuration t)
      rw [segStart, ← hk]
    · rw [segmentList_get]
      show pyRound2 (segEnd t sd k) = pyRound2 (totalDuration t)
      have hle : totalDuration t ≤ ((k : ℚ) + 1) * sd := by
        rw [hk]
        nlinarith
      rw [segEnd, min_eq_right hle]
    · rw [segmentList_get]
      show pyRound2 (segEnd t sd k - segStart sd k) = 0
      have hle : totalDuration t ≤ ((k : ℚ) + 1) * sd := by
        rw [hk]
        nlinarith
      rw [segEnd, min_eq_right hle, segStart, ← hk, sub_self]
      exact pyRound2_zero

/-- C6: with `segment_duration > 0` and a transcript whose `'words'` key is
missing or bound to the empty list, `create_segments` still returns the full
tiling of `floor(duration / segment_duration) + 1` segments, and every returned
segment has `has_lyrics = false`, `word_count = 0` and empty text. -/
theorem C6_empty_words (t : Transcript) (sd : ℚ) (hsd : 0 < sd)
    (hd : 0 ≤ totalDuration t) (hw : t.words = none ∨ t.words = some [])
    (segs : List Segment) (hok : create_segments t sd = Except.ok segs) :
    (segs.length : ℤ) = ⌊totalDuration t / sd⌋ + 1 ∧
    ∀ s ∈ segs, s.has_lyrics = false ∧ s.word_count = 0 ∧ s.lyrics = "" := by
  have hseg := eq_segmentList_of_ok t sd segs hok
  subst hseg
  constructor
  · have hfl : 0 ≤ ⌊totalDuration t / sd⌋ := Int.floor_nonneg.2 (div_nonneg hd hsd.le)
    rw [segmentList_length, totalSegments_nonneg_toNat t sd hd hsd]
    push_cast
    omega
  · intro s hs
    rw [segmentList] at hs
    rcases List.mem_map.1 hs with ⟨i, _, rfl⟩
    rcases hw with hw | hw <;>
      simp [mkSegment, wordsInSegment, hw, joinSpace, String.intercalate, pyStrip_empty]

/-- C9: every segment returned by `create_segments` is internally consistent:
`segment_id` equals its position in the list, `duration` is `round(end_time -
start_time, 2)` computed from the loop's pre-rounding `start_time`/`end_time`
values (as at src/app.py line 175), `word_count` is the length of its words
list, and `has_lyrics` holds exactly when `word_count` is positive. -/
theorem C9_internal_consistency (t : Transcript) (sd : ℚ) (hsd : 0 < sd)
    (segs : List Segment) (hok : create_segments t sd = Except.ok segs)
    (i : ℕ) (hi : i < segs.length) :
    (segs.get ⟨i, hi⟩).segment_id = i ∧
    (segs.get ⟨i, hi⟩).duration = pyRound2 (segEnd t sd i - segStart sd i) ∧
    (segs.get ⟨i, hi⟩).word_count = (segs.get ⟨i, hi⟩).words.length ∧
    ((segs.get ⟨i, hi⟩).has_lyrics = true ↔ 0 < (segs.get ⟨i, hi⟩).word_count) := by
  have hseg := eq_segmentList_of_ok t sd segs hok
  subst hseg
  rw [segmentList_get]
  refine ⟨rfl, rfl, rfl, ?_⟩
  simp [mkSegment]

/-- C10: `create_segments` does not disturb its input (the embedding is a pure
function of the transcript, mirroring that the source only reads the
transcription dict and builds each segment's list with a fresh list
comprehension); every returned segment's words list is a sublist of the
original words list: the original word entries themselves, in their original
relative order. -/
theorem C10_words_sublist (t : Transcript) (sd : ℚ) (segs : List Segment)
    (hok : create_segments t sd = Except.ok segs) :
    ∀ s ∈ segs, s.words.Sublist (t.words.getD []) := by
  have hseg := eq_segmentList_of_ok t sd segs hok
  subst hseg
  intro s hs
  rw [segmentList] at hs
  rcases List.mem_map.1 hs with ⟨i, _, rfl⟩
  cases hws : t.words with
  | none => simp [mkSegment, wordsInSegment, hws]
  | some ws =>
    simp only [mkSegment, wordsInSegment, hws, Option.getD_some]
    exact List.filter_sublist ws

/-- C4: with `segment_duration > 0` and all word start times in
`[0, total_duration)`, the word counts of the segments returned by
`create_segments` sum to the number of words of the transcript: every word is
assigned to exactly one segment. -/
theorem C4_word_count_sum (t : Transcript) (sd : ℚ) (hsd : 0 < sd)
    (ws : List Word) (hws : t.words = some ws)
    (hrange : ∀ w ∈ ws, 0 ≤ w.start ∧ w.start < totalDuration t)
    (segs : List Segment) (hok : create_segments t sd = Except.ok segs) :
    (segs.map Segment.word_count).sum = ws.length := by
  have hseg := eq_segmentList_of_ok t sd segs hok
  subst hseg
  rw [segmentList, List.map_map]
  have hcomp : (Segment.word_count ∘ mkSegment t sd)
      = fun i => (ws.filter (segWordPred t sd i)).length := by
    funext i
    simp [mkSegment, wordsInSegment, hws]
  rw [hcomp, list_range_map_sum]
  apply sum_filter_length_of_unique
  intro w hw
  obtain ⟨h0, hlt⟩ := hrange w hw
  exact ⟨bucketIdx sd w.start, bucketIdx_lt t sd w.start hsd h0 hlt,
    fun j => segWordPred_eq_true_iff t sd hsd w h0 hlt j⟩

/-- C5: every segment's text is its assigned words' text fields joined by a
single space and stripped of outer whitespace, with `has_lyrics` true exactly
when the assigned word count is positive; and when the transcript's words are
chronological (non-decreasing start times) with all starts in
`[0, total_duration)`, concatenating the segments' words lists in order yields
exactly the original words list in its original order — so joining the
segments' texts reconstructs the words' texts in order, modulo the whitespace
the join and strip normalise. -/
theorem C5_text_reconstruction (t : Transcript) (sd : ℚ) (hsd : 0 < sd)
    (ws : List Word) (hws : t.words = some ws)
    (segs : List Segment) (hok : create_segments t sd = Except.ok segs) :
    (∀ s ∈ segs, s.lyrics = pyStrip (joinSpace (s.words.map Word.word)) ∧
      (s.has_lyrics = true ↔ 0 < s.word_count)) ∧
    (ws.Pairwise (fun x y => x.start ≤ y.start) →
      (∀ w ∈ ws, 0 ≤ w.start ∧ w.start < totalDuration t) →
      (segs.map Segment.words).flatten = ws) := by
  have hseg := eq_segmentList_of_ok t sd segs hok
  subst hseg
  constructor
  · intro s hs
    rw [segmentList] at hs
    rcases List.mem_map.1 hs with ⟨i, _, rfl⟩
    constructor
    · rfl
    · simp [mkSegment]
  · intro hchron hrange
    rw [segmentList, List.map_map]
    have hcomp : (Segment.words ∘ mkSegment t sd)
        = fun i => ws.filter (segWordPred t sd i) := by
      funext i
      simp [mkSegment, wordsInSegment, hws]
    rw [hcomp]
    have hfc : ∀ i ∈ List.range (totalSegments t sd).toNat,
        ws.filter (segWordPred t sd i)
          = ws.filter (fun w => bucketIdx sd w.start == i) := by
      intro i _
      apply List.filter_congr
      intro w hw
      obtain ⟨h0, hlt⟩ := hrange w hw
      exact segWordPred_eq_beq t sd hsd w h0 hlt i
    rw [List.map_congr_left hfc]
    apply flatten_range_filter_eq_self (fun w => bucketIdx sd w.start) ws
    · exact hchron.imp (fun hxy => bucketIdx_mono sd hsd hxy)
    · intro w hw
      obtain ⟨h0, hlt⟩ := hrange w hw
      exact bucketIdx_lt t sd w.start hsd h0 hlt

/-- C3 counterexample: the claim says segment `i` has `start_time = i *
segment_duration`, but the source stores `round(start_time, 2)` (line 173).
With duration 1 and `segment_duration = 1/8` (the float `0.125`), segment 1's
stored `start_time` is `round(0.125, 2) = 0.12 ≠ 0.125`. -/
theorem C3_rounding_cex :
    ((segmentList ⟨some 1, none⟩ (1/8)).map Segment.start_time).getD 1 0
      ≠ 1 * ((1 : ℚ)/8) := by
  have h1 : totalSegments ⟨some 1, none⟩ (1/8) = 9 := by
    norm_num [totalSegments, totalDuration, pyInt]
  rw [segmentList, h1]
  norm_num [List.range_succ, mkSegment, segStart, pyRound2]

/-- C3 (amended): segment `i`'s stored `start_time` and `end_time` are the
2-decimal roundings of `i * segment_duration` and
`min((i+1) * segment_duration, total_duration)`, its `duration` the rounding of
their difference; the underlying pre-rounding windows tile `[0, total_duration)`
contiguously: window `i`'s start equals window `i-1`'s end for `i > 0`, and
every time point in `[0, total_duration)` lies in exactly one window. -/
theorem C3_tiling (t : Transcript) (sd : ℚ) (hsd : 0 < sd)
    (hd : 0 ≤ totalDuration t) (segs : List Segment)
    (hok : create_segments t sd = Except.ok segs) (i : ℕ) (hi : i < segs.length) :
    (segs.get ⟨i, hi⟩).start_time = pyRound2 (segStart sd i) ∧
    (segs.get ⟨i, hi⟩).end_time = pyRound2 (segEnd t sd i) ∧
    (segs.get ⟨i, hi⟩).duration = pyRound2 (segEnd t sd i - segStart sd i) ∧
    (0 < i → segStart sd i = segEnd t sd (i - 1)) ∧
    (∀ x : ℚ, 0 ≤ x → x < totalDuration t →
      ∃ j : ℕ, j < segs.length ∧ segStart sd j ≤ x ∧ x < segEnd t sd j ∧
        ∀ j2 : ℕ, segStart sd j2 ≤ x → x < segEnd t sd j2 → j2 = j) := by
  have hseg := eq_segmentList_of_ok t sd segs hok
  subst hseg
  have hfl : 0 ≤ ⌊totalDuration t / sd⌋ := Int.floor_nonneg.2 (div_nonneg hd hsd.le)
  have hlen : (segmentList t sd).length = (⌊totalDuration t / sd⌋).toNat + 1 := by
    rw [segmentList_length, totalSegments_nonneg_toNat t sd hd hsd]
  rw [segmentList_get]
  refine ⟨rfl, rfl, rfl, ?_, ?_⟩
  · intro hpos
    have hle : (i : ℚ) * sd ≤ totalDuration t := by
      have hile : (i : ℤ) ≤ ⌊totalDuration t / sd⌋ := by
        rw [hlen] at hi
        omega
      have : (i : ℚ) ≤ totalDuration t / sd :=
        le_trans (by exact_mod_cast hile) (Int.floor_le _)
      exact (le_div_iff₀ hsd).1 this
    have hcast : ((i - 1 : ℕ) : ℚ) + 1 = (i : ℚ) := by
      have : 1 ≤ i := hpos
      push_cast [Nat.cast_sub this]
      ring
    rw [segStart, segEnd, hcast, min_eq_left hle]
  · intro x h0 hx
    refine ⟨bucketIdx sd x, ?_, ?_, ?_, ?_⟩
    · rw [segmentList_length]
      exact bucketIdx_lt t sd x hsd h0 hx
    · rw [segStart]
      exact ((bucketIdx_spec sd x hsd h0 (bucketIdx sd x)).2 rfl).1
    · rw [segEnd]
      exact lt_min_iff.2 ⟨((bucketIdx_spec sd x hsd h0 (bucketIdx sd x)).2 rfl).2, hx⟩
    · intro j2 hj1 hj2
      rw [segStart] at hj1
      rw [segEnd] at hj2
      exact (bucketIdx_spec sd x hsd h0 j2).1 ⟨hj1, (lt_min_iff.1 hj2).1⟩

/-- C7 counterexample: the claim says the segmenter fails with an
invalid-argument failure for every `segment_duration ≤ 0`, but with
`segment_duration = -4` and duration 10 the source computes
`int(10 / -4) + 1 = -1`, `range(-1)` is empty, and `create_segments` returns a
normal (empty) segment list — no failure at all. -/
theorem C7_negative_duration_cex :
    create_segments ⟨some 10, some []⟩ (-4) = Except.ok [] := by
  rw [create_segments_ok ⟨some 10, some []⟩ (-4) (by norm_num)]
  have h1 : totalSegments ⟨some 10, some []⟩ (-4) = -1 := by
    have hdiv : totalDuration ⟨some 10, some []⟩ / (-4) = -(5/2 : ℚ) := by
      norm_num [totalDuration]
    have hceil : ⌈-(5/2 : ℚ)⌉ = -2 := by
      rw [Int.ceil_neg]
      norm_num
    norm_num [totalSegments, pyInt, hdiv, hceil]
  rw [segmentList, h1]
  rfl

/-- C7 (amended): the source has no guard on `segment_duration ≤ 0`.  With
`segment_duration = 0` the division `total_duration / segment_duration` at line
153 raises `ZeroDivisionError` — a processing error surfaced as a 500, not an
invalid-argument failure — and with any `segment_duration < 0` the function
returns a normal segment list. -/
theorem C7_no_guard (t : Transcript) (sd : ℚ) (hsd : sd < 0) :
    create_segments t 0 = Except.error "ZeroDivisionError: float division by zero" ∧
    ∃ segs, create_segments t sd = Except.ok segs := by
  constructor
  · simp [create_segments]
  · exact ⟨segmentList t sd, create_segments_ok t sd (ne_of_lt hsd)⟩

/-- C8 counterexample: the claim says a JSON body carrying the audio only under
the `audioData` key is accepted, but the guard at line 55 tests only
`'audio_data' not in data`, so such a body is rejected as missing audio
(HTTP 400). -/
theorem C8_audioData_rejected_cex :
    base64MissingAudio (some ⟨[("audioData", "QUJDRA==")]⟩) = true := by
  rfl

/-- C8 (amended): `process_audio_base64` reads the audio only from the
`audio_data` key: every JSON body without an `audio_data` key — in particular
one supplying the base64 audio only under `audioData` — is rejected by the
missing-audio guard with a 400 client-input error, and the audio read at line
59 finds nothing. -/
theorem C8_only_audio_data (d : JsonBody) (h : d.hasKey "audio_data" = false) :
    base64MissingAudio (some d) = true ∧ base64AudioField d = none := by
  constructor
  · simp [base64MissingAudio, h]
  · rw [base64AudioField, JsonBody.getKey]
    have hnone : d.entries.find? (fun e => e.1 == "audio_data") = none := by
      apply List.find?_eq_none.2
      intro e he
      rw [JsonBody.hasKey] at h
      have := List.any_eq_false.1 (by rw [h]) e he
      simpa using this
    rw [hnone]
    rfl

/-! ### Concrete witnesses

The spec's concrete scenario: duration 10, `segment_duration` 4, and three
words starting at 3.9, 4.0 and 7.99 seconds. -/

def exWords : List Word :=
  [⟨"premier", 39/10, 4⟩, ⟨"deuxieme", 4, 9/2⟩, ⟨"troisieme", 799/100, 8⟩]

def exT : Transcript := ⟨some 10, some exWords⟩

/-- A transcript whose duration (8) is an exact multiple of the window width 4
and which has no `'words'` key. -/
def exT2 : Transcript := ⟨some 8, none⟩

theorem exT_length : (segmentList exT 4).length = 3 := by
  rw [segmentList_length]
  norm_num [totalSegments, totalDuration, exT, pyInt]
  rfl

theorem exT2_length : (segmentList exT2 4).length = 3 := by
  rw [segmentList_length]
  norm_num [totalSegments, totalDuration, exT2, pyInt]
  rfl

/-- Witness instantiating `C1_word_assignment`: the word starting exactly at the
4-second boundary belongs to segment 1, the later segment. -/
theorem C1_word_assignment_witness :
    (⟨"deuxieme", 4, 9/2⟩ : Word) ∈
        ((segmentList exT 4).get ⟨1, by rw [exT_length]; norm_num⟩).words ↔
      ((1 : ℚ) * 4 ≤ (⟨"deuxieme", 4, 9/2⟩ : Word).start ∧
        (⟨"deuxieme", 4, 9/2⟩ : Word).start < min (((1 : ℚ) + 1) * 4) (totalDuration exT)) :=
  C1_word_assignment exT 4 (by norm_num) (segmentList exT 4)
    (create_segments_ok exT 4 (by norm_num)) exWords rfl
    ⟨"deuxieme", 4, 9/2⟩ (by simp [exWords]) 1 (by rw [exT_length]; norm_num)

/-- Witness instantiating `C2_segment_count` at the exact-multiple transcript. -/
theorem C2_segment_count_witness :
    ((segmentList exT2 4).length : ℤ) = ⌊totalDuration exT2 / 4⌋ + 1 ∧
    ∀ k : ℕ, totalDuration exT2 = (k : ℚ) * 4 →
      (segmentList exT2 4).length = k + 1 ∧
      ∃ h : k < (segmentList exT2 4).length,
        ((segmentList exT2 4).get ⟨k, h⟩).start_time = pyRound2 (totalDuration exT2) ∧
        ((segmentList exT2 4).get ⟨k, h⟩).end_time = pyRound2 (totalDuration exT2) ∧
        ((segmentList exT2 4).get ⟨k, h⟩).duration = 0 :=
  C2_segment_count exT2 4 (by norm_num [totalDuration, exT2]) (by norm_num)
    (segmentList exT2 4) (create_segments_ok exT2 4 (by norm_num))

/-- Witness instantiating `C3_tiling` at segment 2 of the spec's
duration-10 scenario (the clamped final window `[8, 10)`). -/
theorem C3_tiling_witness :
    ((segmentList exT 4).get ⟨2, by rw [exT_length]; norm_num⟩).start_time
        = pyRound2 (segStart 4 2) ∧
    ((segmentList exT 4).get ⟨2, by rw [exT_length]; norm_num⟩).end_time
        = pyRound2 (segEnd exT 4 2) ∧
    ((segmentList exT 4).get ⟨2, by rw [exT_length]; norm_num⟩).duration
        = pyRound2 (segEnd exT 4 2 - segStart 4 2) ∧
    (0 < 2 → segStart 4 2 = segEnd exT 4 (2 - 1)) ∧
    (∀ x : ℚ, 0 ≤ x → x < totalDuration exT →
      ∃ j : ℕ, j < (segmentList exT 4).length ∧ segStart 4 j ≤ x ∧ x < segEnd exT 4 j ∧
        ∀ j2 : ℕ, segStart 4 j2 ≤ x → x < segEnd exT 4 j2 → j2 = j) :=
  C3_tiling exT 4 (by norm_num) (by norm_num [totalDuration, exT]) (segmentList exT 4)
    (create_segments_ok exT 4 (by norm_num)) 2 (by rw [exT_length]; norm_num)

/-- Witness instantiating `C4_word_count_sum`: the three words of the scenario
are partitioned among the three segments. -/
theorem C4_word_count_sum_witness :
    ((segmentList exT 4).map Segment.word_count).sum = exWords.length :=
  C4_word_count_sum exT 4 (by norm_num) exWords rfl
    (by intro w hw; fin_cases hw <;> norm_num [totalDuration, exT])
    (segmentList exT 4) (create_segments_ok exT 4 (by norm_num))

/-- Witness instantiating `C5_text_reconstruction` on the scenario transcript. -/
theorem C5_text_reconstruction_witness :
    (∀ s ∈ segmentList exT 4, s.lyrics = pyStrip (joinSpace (s.words.map Word.word)) ∧
      (s.has_lyrics = true ↔ 0 < s.word_count)) ∧
    (exWords.Pairwise (fun x y => x.start ≤ y.start) →
      (∀ w ∈ exWords, 0 ≤ w.start ∧ w.start < totalDuration exT) →
      ((segmentList exT 4).map Segment.words).flatten = exWords) :=
  C5_text_reconstruction exT 4 (by norm_num) exWords rfl
    (segmentList exT 4) (create_segments_ok exT 4 (by norm_num))

/-- Witness instantiating `C6_empty_words` at the words-less transcript. -/
theorem C6_empty_words_witness :
    ((segmentList exT2 4).length : ℤ) = ⌊totalDuration exT2 / 4⌋ + 1 ∧
    ∀ s ∈ segmentList exT2 4, s.has_lyrics = false ∧ s.word_count = 0 ∧ s.lyrics = "" :=
  C6_empty_words exT2 4 (by norm_num) (by norm_num [totalDuration, exT2]) (Or.inl rfl)
    (segmentList exT2 4) (create_segments_ok exT2 4 (by norm_num))

/-- Witness instantiating `C7_no_guard` at `segment_duration = -4`. -/
theorem C7_no_guard_witness :
    create_segments exT 0 = Except.error "ZeroDivisionError: float division by zero" ∧
    ∃ segs, create_segments exT (-4) = Except.ok segs :=
  C7_no_guard exT (-4) (by norm_num)

/-- Witness instantiating `C8_only_audio_data` at a body holding only
`audioData` and `segment_duration` keys. -/
theorem C8_only_audio_data_witness :
    base64MissingAudio (some ⟨[("audioData", "QUJDRA=="), ("segment_duration", "4")]⟩) = true ∧
    base64AudioField ⟨[("audioData", "QUJDRA=="), ("segment_duration", "4")]⟩ = none :=
  C8_only_audio_data ⟨[("audioData", "QUJDRA=="), ("segment_duration", "4")]⟩ rfl

/-- Witness instantiating `C9_internal_consistency` at segment 1 of the
scenario transcript. -/
theorem C9_internal_consistency_witness :
    ((segmentList exT 4).get ⟨1, by rw [exT_length]; norm_num⟩).segment_id = 1 ∧
    ((segmentList exT 4).get ⟨1, by rw [exT_length]; norm_num⟩).duration
        = pyRound2 (segEnd exT 4 1 - segStart 4 1) ∧
    ((segmentList exT 4).get ⟨1, by rw [exT_length]; norm_num⟩).word_count
        = ((segmentList exT 4).get ⟨1, by rw [exT_length]; norm_num⟩).words.length ∧
    (((segmentList exT 4).get ⟨1, by rw [exT_length]; norm_num⟩).has_lyrics = true ↔
      0 < ((segmentList exT 4).get ⟨1, by rw [exT_length]; norm_num⟩).word_count) :=
  C9_internal_consistency exT 4 (by norm_num) (segmentList exT 4)
    (create_segments_ok exT 4 (by norm_num)) 1 (by rw [exT_length]; norm_num)

/-- Witness instantiating `C10_words_sublist` at segment 1 of the scenario
transcript. -/
theorem C10_words_sublist_witness :
    ((segmentList exT 4).get ⟨1, by rw [exT_length]; norm_num⟩).words.Sublist
      (exT.words.getD []) :=
  C10_words_sublist exT 4 (segmentList exT 4) (create_segments_ok exT 4 (by norm_num))
    ((segmentList exT 4).get ⟨1, by rw [exT_length]; norm_num⟩)
    (List.get_mem _ _ _)
